import Mathlib

/-! Verification development for the zfs-snapshot-operator retention engine.

The Go sources are shallowly embedded as Lean definitions:

* time instants (Go `time.Time` in UTC) are whole seconds since the Unix
  epoch, represented as `Int`; all calendar computations use the proleptic
  Gregorian calendar in UTC, matching Go's `time` package (`Date`, `Hour`,
  `ISOWeek`, ...) at second granularity;
* the period-key strings produced by `GetTimePeriodKey` (pkg/zfs) are
  represented by the structured type `PeriodKey`: each constructor mirrors
  one of the distinct zero-padded format shapes of the source, which are
  injective in their numeric fields, so key-string equality coincides with
  `PeriodKey` equality;
* the zfs command layer is an explicit environment (`Env`) recording, for
  each query/mutation, the outcome the external `zfs`/`zpool` binaries
  would produce; `processFrequency`, `processPool` and the pool loop of
  `Run` (pkg/operator) become pure functions from an environment and a
  starting counter state to an outcome record that also carries the exact
  list of create/delete calls issued.
-/

namespace ZfsOp

/-! ## Calendar arithmetic

`civilFromDays` and `daysFromCivil` are the standard proleptic-Gregorian
conversions between a day number (days since 1970-01-01) and a civil date
(year, month, day), the calendar computed by Go's `time.Time.Date`.
The year-of-era, day-of-year and month-point of the era decomposition are
named functions so that proofs can speak about them directly.
-/

/-- Year of era (0..399) for a day of era (0..146096). -/
def yoeOf (doe : Int) : Int :=
  (doe - doe / 1460 + doe / 36524 - doe / 146096) / 365

/-- Day of year (March-based) for a day of era. -/
def doyOf (doe : Int) : Int :=
  doe - (365 * yoeOf doe + yoeOf doe / 4 - yoeOf doe / 100)

/-- Month point (0 = March .. 11 = February) for a day of era. -/
def mpOf (doe : Int) : Int := (5 * doyOf doe + 2) / 153

/-- Civil date from day number (days since 1970-01-01, may be negative). -/
def civilFromDays (z : Int) : Int × Int × Int :=
  let doe := (z + 719468) % 146097
  let era := (z + 719468) / 146097
  let y := yoeOf doe + era * 400
  let d := doyOf doe - (153 * mpOf doe + 2) / 5 + 1
  let m := if mpOf doe < 10 then mpOf doe + 3 else mpOf doe - 9
  (if m ≤ 2 then y + 1 else y, m, d)

/-- Day number from a civil date; left inverse of `civilFromDays`. -/
def daysFromCivil (y m d : Int) : Int :=
  let y' := if m ≤ 2 then y - 1 else y
  let era := y' / 400
  let yoe := y' - era * 400
  let doy := (153 * (if 2 < m then m - 3 else m + 9) + 2) / 5 + d - 1
  let doe := yoe * 365 + yoe / 4 - yoe / 100 + doy
  era * 146097 + doe - 719468

theorem civilFromDays_epoch : civilFromDays 0 = (1970, 1, 1) := by decide

/-- Bounds for Euclidean division, used to feed `omega` with facts about
divisions whose dividends it treats as opaque. -/
theorem ediv_bounds (n k : Int) (hk : 0 < k) :
    k * (n / k) ≤ n ∧ n < k * (n / k) + k := by
  have h1 := Int.ediv_add_emod n k
  have h2 := Int.emod_nonneg n (ne_of_gt hk)
  have h3 := Int.emod_lt_of_pos n hk
  constructor <;> linarith

/-- The year of era lies in `[0, 399]`. -/
theorem yoeOf_bounds (doe : Int) (h0 : 0 ≤ doe) (h1 : doe ≤ 146096) :
    0 ≤ yoeOf doe ∧ yoeOf doe ≤ 399 := by
  unfold yoeOf
  obtain ⟨y1, y2⟩ := ediv_bounds (doe - doe / 1460 + doe / 36524 - doe / 146096) 365 (by omega)
  omega

set_option maxHeartbeats 4000000 in
/-- The day of year lies in `[0, 366]`. -/
theorem doyOf_bounds (doe : Int) (h0 : 0 ≤ doe) (h1 : doe ≤ 146096) :
    0 ≤ doyOf doe ∧ doyOf doe ≤ 366 := by
  unfold doyOf yoeOf
  obtain ⟨y1, y2⟩ := ediv_bounds (doe - doe / 1460 + doe / 36524 - doe / 146096) 365 (by omega)
  obtain ⟨d1, d2⟩ := ediv_bounds ((doe - doe / 1460 + doe / 36524 - doe / 146096) / 365) 4 (by omega)
  obtain ⟨e1, e2⟩ := ediv_bounds ((doe - doe / 1460 + doe / 36524 - doe / 146096) / 365) 100 (by omega)
  set e := (doe - doe / 1460 + doe / 36524 - doe / 146096) / 365 with he
  have hb0 : 0 ≤ e := by omega
  have hb1 : e ≤ 399 := by omega
  interval_cases e <;> omega

/-- The month point lies in `[0, 11]`. -/
theorem mpOf_bounds (doe : Int) (h0 : 0 ≤ doe) (h1 : doe ≤ 146096) :
    0 ≤ mpOf doe ∧ mpOf doe ≤ 11 := by
  obtain ⟨d0, d1⟩ := doyOf_bounds doe h0 h1
  unfold mpOf
  obtain ⟨m1, m2⟩ := ediv_bounds (5 * doyOf doe + 2) 153 (by omega)
  omega

/-- Converting a day number to a civil date and back is the identity. -/
theorem daysFromCivil_civilFromDays (z : Int) :
    daysFromCivil (civilFromDays z).1 (civilFromDays z).2.1 (civilFromDays z).2.2 = z := by
  unfold civilFromDays
  dsimp only
  generalize hd : (z + 719468) % 146097 = doe
  generalize he : (z + 719468) / 146097 = era
  have h0 : 0 ≤ doe := by omega
  have h1 : doe ≤ 146096 := by omega
  have hz : z + 719468 = era * 146097 + doe := by omega
  obtain ⟨hy0, hy1⟩ := yoeOf_bounds doe h0 h1
  obtain ⟨hd0, hd1⟩ := doyOf_bounds doe h0 h1
  obtain ⟨hp0, hp1⟩ := mpOf_bounds doe h0 h1
  have hdoy : doyOf doe = doe - (365 * yoeOf doe + yoeOf doe / 4 - yoeOf doe / 100) := rfl
  have hyrec : (yoeOf doe + era * 400) / 400 = era := by
    rw [Int.add_mul_ediv_right _ _ (by omega : (400 : Int) ≠ 0),
      Int.ediv_eq_zero_of_lt hy0 (by omega)]
    omega
  unfold daysFromCivil
  dsimp only
  by_cases hlt : mpOf doe < 10
  · simp only [if_pos hlt, if_neg (by omega : ¬ (mpOf doe + 3 ≤ 2)),
      if_pos (by omega : 2 < mpOf doe + 3)]
    rw [hyrec, (by omega : mpOf doe + 3 - 3 = mpOf doe),
      (by omega : yoeOf doe + era * 400 - era * 400 = yoeOf doe)]
    omega
  · simp only [if_neg hlt, if_pos (by omega : mpOf doe - 9 ≤ 2),
      if_neg (by omega : ¬ 2 < mpOf doe - 9)]
    rw [(by omega : yoeOf doe + era * 400 + 1 - 1 = yoeOf doe + era * 400), hyrec,
      (by omega : mpOf doe - 9 + 9 = mpOf doe),
      (by omega : yoeOf doe + era * 400 - era * 400 = yoeOf doe)]
    omega

/-- The function civilFromDays is injective. -/
theorem civilFromDays_injective : Function.Injective civilFromDays := by
  intro a b h
  have ha := daysFromCivil_civilFromDays a
  have hb := daysFromCivil_civilFromDays b
  rw [h] at ha
  omega

/-! ## Instants and their calendar components

An instant is a whole number of seconds since 1970-01-01 00:00:00 UTC.
The component functions below are Go's `time.Time` accessors in UTC.
-/

/-- Days since 1970-01-01 of an instant. -/
def dayNumber (t : Int) : Int := t / 86400

/-- Seconds since midnight of an instant. -/
def secondOfDay (t : Int) : Int := t % 86400

/-- Hour of the day (Go `Hour`). -/
def hourOf (t : Int) : Int := secondOfDay t / 3600

/-- Minute of the hour (Go `Minute`). -/
def minuteOf (t : Int) : Int := secondOfDay t % 3600 / 60

/-- Second of the minute (Go `Second`). -/
def secondOf (t : Int) : Int := secondOfDay t % 60

/-- Calendar year (Go `Year`). -/
def yearOf (t : Int) : Int := (civilFromDays (dayNumber t)).1

/-- Calendar month (Go `Month`). -/
def monthOf (t : Int) : Int := (civilFromDays (dayNumber t)).2.1

/-- Day of the month (Go `Day`). -/
def dayOf (t : Int) : Int := (civilFromDays (dayNumber t)).2.2

/-- Weekday with Sunday = 0 (Go `Weekday`); 1970-01-01 was a Thursday (= 4). -/
def weekdayOf (t : Int) : Int := (dayNumber t + 4) % 7

/-- Day number of the Thursday of the ISO week containing `t`.  Go's
`ISOWeek` shifts the instant by `Thursday - t.Weekday()` days (by `-3` for
Sunday); shifting an instant by whole days shifts its day number by the
same amount and leaves the time of day unchanged, so only the day number
is tracked. -/
def isoThursdayDay (t : Int) : Int :=
  dayNumber t + (if 4 - weekdayOf t = 4 then -3 else 4 - weekdayOf t)

/-- ISO-8601 year and week of an instant (Go `ISOWeek`): the year and the
one-based week index of the Thursday of the instant's Monday-based week. -/
def isoWeek (t : Int) : Int × Int :=
  let thu := isoThursdayDay t
  let year := (civilFromDays thu).1
  (year, (thu - daysFromCivil year 1 1) / 7 + 1)

/-- Build an instant from civil components, for concrete test inputs. -/
def mkTime (y mo d h mi s : Int) : Int :=
  86400 * daysFromCivil y mo d + 3600 * h + 60 * mi + s

/-! ## Period keys

`GetTimePeriodKey` (pkg/zfs/zfs.go) returns one formatted string per
frequency: `"2026-01-25 14:30"` (frequently, minute floored to 15),
`"2026-01-25 14"` (hourly), `"2026-01-25"` (daily), `"2026-W04"` (weekly),
`"2026-01"` (monthly), `"2026"` (yearly), and the full second-precision
timestamp otherwise.  Each constructor of `PeriodKey` stands for one of
these zero-padded shapes, which are injective in their numeric fields, so
string equality of keys coincides with `PeriodKey` equality. -/
inductive PeriodKey where
  | freq15 (y mo d h mi : Int)
  | hourly (y mo d h : Int)
  | daily (y mo d : Int)
  | weekly (y w : Int)
  | monthly (y mo : Int)
  | yearly (y : Int)
  | full (y mo d h mi s : Int)
deriving DecidableEq

/-- GetTimePeriodKey returns a unique key for the time period based on
frequency (pkg/zfs/zfs.go). -/
def GetTimePeriodKey (t : Int) (frequency : String) : PeriodKey :=
  if frequency = "frequently" then
    .freq15 (yearOf t) (monthOf t) (dayOf t) (hourOf t) (minuteOf t / 15 * 15)
  else if frequency = "hourly" then
    .hourly (yearOf t) (monthOf t) (dayOf t) (hourOf t)
  else if frequency = "daily" then
    .daily (yearOf t) (monthOf t) (dayOf t)
  else if frequency = "weekly" then
    .weekly (isoWeek t).1 (isoWeek t).2
  else if frequency = "monthly" then
    .monthly (yearOf t) (monthOf t)
  else if frequency = "yearly" then
    .yearly (yearOf t)
  else
    .full (yearOf t) (monthOf t) (dayOf t) (hourOf t) (minuteOf t) (secondOf t)

/-! ## Calendar buckets (specification side)

Independent definitions of "two instants fall in the same calendar bucket",
following the specification's wording: calendar hours and days are aligned
floor intervals of the UTC timeline, ISO weeks are Monday-based weeks
(1970-01-01 was a Thursday, so the Monday-based week index of day `d` is
`(d + 3) / 7`), and months and years are the civil calendar fields. -/

/-- Same calendar hour (UTC). -/
def sameCalendarHour (t1 t2 : Int) : Prop := t1 / 3600 = t2 / 3600

/-- Same calendar day (UTC). -/
def sameCalendarDay (t1 t2 : Int) : Prop := t1 / 86400 = t2 / 86400

/-- Same ISO-8601 week: same Monday-based week of the day line. -/
def sameIsoWeek (t1 t2 : Int) : Prop :=
  (t1 / 86400 + 3) / 7 = (t2 / 86400 + 3) / 7

/-- Same calendar month (UTC). -/
def sameCalendarMonth (t1 t2 : Int) : Prop :=
  yearOf t1 = yearOf t2 ∧ monthOf t1 = monthOf t2

/-- Same calendar year (UTC). -/
def sameCalendarYear (t1 t2 : Int) : Prop := yearOf t1 = yearOf t2

/-- Equality of the civil date triple is equality of the day number. -/
theorem ymd_eq_iff (t1 t2 : Int) :
    (yearOf t1 = yearOf t2 ∧ monthOf t1 = monthOf t2 ∧ dayOf t1 = dayOf t2) ↔
      dayNumber t1 = dayNumber t2 := by
  constructor
  · rintro ⟨h1, h2, h3⟩
    apply civilFromDays_injective
    have e1 : civilFromDays (dayNumber t1) =
        ((civilFromDays (dayNumber t1)).1, (civilFromDays (dayNumber t1)).2.1,
          (civilFromDays (dayNumber t1)).2.2) := rfl
    have e2 : civilFromDays (dayNumber t2) =
        ((civilFromDays (dayNumber t2)).1, (civilFromDays (dayNumber t2)).2.1,
          (civilFromDays (dayNumber t2)).2.2) := rfl
    rw [e1, e2]
    exact congrArg₂ Prod.mk h1 (congrArg₂ Prod.mk h2 h3)
  · intro h
    unfold yearOf monthOf dayOf
    rw [h]
    exact ⟨rfl, rfl, rfl⟩

/-- The ISO-week Thursday is day `7 * ((dayNumber t + 3) / 7)`. -/
theorem isoThursdayDay_eq (t : Int) :
    isoThursdayDay t = 7 * ((dayNumber t + 3) / 7) := by
  unfold isoThursdayDay weekdayOf
  split <;> omega

/-- Go's ISO year/week pair coincides on two instants exactly when they lie
in the same Monday-based week. -/
theorem isoWeek_eq_iff (t1 t2 : Int) :
    isoWeek t1 = isoWeek t2 ↔ sameIsoWeek t1 t2 := by
  unfold isoWeek sameIsoWeek
  dsimp only
  rw [isoThursdayDay_eq t1, isoThursdayDay_eq t2]
  constructor
  · intro h
    rw [Prod.mk.injEq] at h
    obtain ⟨hy, hw⟩ := h
    rw [hy] at hw
    set j := daysFromCivil (civilFromDays (7 * ((dayNumber t2 + 3) / 7))).1 1 1 with hj
    have e1 : 7 * ((dayNumber t1 + 3) / 7) - j = -j + ((dayNumber t1 + 3) / 7) * 7 := by ring
    have e2 : 7 * ((dayNumber t2 + 3) / 7) - j = -j + ((dayNumber t2 + 3) / 7) * 7 := by ring
    rw [e1, e2, Int.add_mul_ediv_right _ _ (by omega : (7 : Int) ≠ 0),
      Int.add_mul_ediv_right _ _ (by omega : (7 : Int) ≠ 0)] at hw
    have : dayNumber t1 = t1 / 86400 := rfl
    have : dayNumber t2 = t2 / 86400 := rfl
    unfold dayNumber at hw
    omega
  · intro h
    unfold dayNumber
    unfold dayNumber at h
    rw [h]

/-- Claim C6: for every pair of timestamps within one consistent time zone
(UTC), the hourly keys agree iff the timestamps share a calendar hour, the
daily keys iff they share a calendar day, the weekly keys iff they share an
ISO-8601 week, the monthly keys iff they share a calendar month, the yearly
keys iff they share a calendar year, and for an unrecognized frequency the
key is the full second-precision timestamp, so keys agree iff the
timestamps coincide (to the second). -/
theorem C6_bucketing_determinism (t1 t2 : Int) :
    (GetTimePeriodKey t1 "hourly" = GetTimePeriodKey t2 "hourly" ↔ sameCalendarHour t1 t2) ∧
    (GetTimePeriodKey t1 "daily" = GetTimePeriodKey t2 "daily" ↔ sameCalendarDay t1 t2) ∧
    (GetTimePeriodKey t1 "weekly" = GetTimePeriodKey t2 "weekly" ↔ sameIsoWeek t1 t2) ∧
    (GetTimePeriodKey t1 "monthly" = GetTimePeriodKey t2 "monthly" ↔ sameCalendarMonth t1 t2) ∧
    (GetTimePeriodKey t1 "yearly" = GetTimePeriodKey t2 "yearly" ↔ sameCalendarYear t1 t2) ∧
    (∀ f : String,
      f ∉ (["frequently", "hourly", "daily", "weekly", "monthly", "yearly"] : List String) →
      (GetTimePeriodKey t1 f = GetTimePeriodKey t2 f ↔ t1 = t2)) := by
  refine ⟨?_, ?_, ?_, ?_, ?_, ?_⟩
  · show PeriodKey.hourly _ _ _ _ = PeriodKey.hourly _ _ _ _ ↔ _
    rw [PeriodKey.hourly.injEq]
    unfold sameCalendarHour
    constructor
    · rintro ⟨h1, h2, h3, h4⟩
      have hd := (ymd_eq_iff t1 t2).1 ⟨h1, h2, h3⟩
      unfold hourOf secondOfDay at h4
      unfold dayNumber at hd
      omega
    · intro h
      have hd : dayNumber t1 = dayNumber t2 := by unfold dayNumber; omega
      obtain ⟨h1, h2, h3⟩ := (ymd_eq_iff t1 t2).2 hd
      refine ⟨h1, h2, h3, ?_⟩
      unfold hourOf secondOfDay
      omega
  · show PeriodKey.daily _ _ _ = PeriodKey.daily _ _ _ ↔ _
    rw [PeriodKey.daily.injEq]
    unfold sameCalendarDay
    constructor
    · rintro ⟨h1, h2, h3⟩
      exact (ymd_eq_iff t1 t2).1 ⟨h1, h2, h3⟩
    · intro h
      exact (ymd_eq_iff t1 t2).2 h
  · show PeriodKey.weekly _ _ = PeriodKey.weekly _ _ ↔ _
    rw [PeriodKey.weekly.injEq]
    constructor
    · rintro ⟨h1, h2⟩
      exact (isoWeek_eq_iff t1 t2).1 (Prod.ext h1 h2)
    · intro h
      have := (isoWeek_eq_iff t1 t2).2 h
      exact ⟨congrArg Prod.fst this, congrArg Prod.snd this⟩
  · show PeriodKey.monthly _ _ = PeriodKey.monthly _ _ ↔ _
    rw [PeriodKey.monthly.injEq]
    unfold sameCalendarMonth
    exact Iff.rfl
  · show PeriodKey.yearly _ = PeriodKey.yearly _ ↔ _
    rw [PeriodKey.yearly.injEq]
    unfold sameCalendarYear
    exact Iff.rfl
  · intro f hf
    simp only [List.mem_cons, List.not_mem_nil, or_false] at hf
    push_neg at hf
    obtain ⟨n1, n2, n3, n4, n5, n6⟩ := hf
    unfold GetTimePeriodKey
    simp only [if_neg n1, if_neg n2, if_neg n3, if_neg n4, if_neg n5, if_neg n6]
    rw [PeriodKey.full.injEq]
    constructor
    · rintro ⟨h1, h2, h3, h4, h5, h6⟩
      have hd := (ymd_eq_iff t1 t2).1 ⟨h1, h2, h3⟩
      unfold hourOf secondOfDay at h4
      unfold minuteOf secondOfDay at h5
      unfold secondOf secondOfDay at h6
      unfold dayNumber at hd
      omega
    · intro h
      rw [h]
      exact ⟨rfl, rfl, rfl, rfl, rfl, rfl⟩

/-- Witness for C6: two instants 14:30:45 and 14:59:59 on 2026-01-25 share
the hourly bucket, and an unrecognized frequency separates them. -/
theorem C6_bucketing_determinism_witness :
    (GetTimePeriodKey (mkTime 2026 1 25 14 30 45) "hourly" =
        GetTimePeriodKey (mkTime 2026 1 25 14 59 59) "hourly") ∧
    ¬ (GetTimePeriodKey (mkTime 2026 1 25 14 30 45) "rogue" =
        GetTimePeriodKey (mkTime 2026 1 25 14 59 59) "rogue") := by
  constructor
  · exact (C6_bucketing_determinism (mkTime 2026 1 25 14 30 45)
      (mkTime 2026 1 25 14 59 59)).1.2 (by unfold sameCalendarHour; decide)
  · intro h
    have := ((C6_bucketing_determinism (mkTime 2026 1 25 14 30 45)
      (mkTime 2026 1 25 14 59 59)).2.2.2.2.2 "rogue" (by decide)).1 h
    exact absurd this (by decide)

/-! ## Data model (pkg/models/models.go) -/

/-- A ZFS snapshot. -/
structure Snapshot where
  poolName : String
  filesystemName : String
  snapshotName : String
  dateTime : Int
  frequency : String
deriving DecidableEq

/-- A ZFS pool/filesystem descriptor. -/
structure Pool where
  poolName : String
  filesystemName : String
  used : String
  avail : String
  mountpoint : String
deriving DecidableEq

/-- Health status of a ZFS pool. -/
structure PoolStatus where
  name : String
  state : String
  status : String
  action : String
  errorCount : String
  lastScrubTime : Int
  scrubState : String
  scrubFunction : String
  allocSpace : String
  totalSpace : String
  readErrors : String
  writeErrors : String
  checksumErrors : String
deriving DecidableEq

/-! ## Configuration (pkg/config/config.go)

Only the fields the retention engine reads are carried.  The snapshot
count fields and the per-run deletion budget are natural numbers (the
source reads them from environment variables as Go `int`s with
non-negative defaults). -/

/-- Application configuration. -/
structure Config where
  dryRun : Bool
  maxDeletionsPerRun : Nat
  maxHourlySnapshots : Nat
  maxDailySnapshots : Nat
  maxWeeklySnapshots : Nat
  maxMonthlySnapshots : Nat
  maxYearlySnapshots : Nat
  poolWhitelist : List String
  filesystemWhitelist : List String
  prefixName : String
deriving DecidableEq

/-- The supported snapshot frequencies (config.Frequencies). -/
def Frequencies : List String := ["hourly", "daily", "weekly", "monthly", "yearly"]

/-- GetMaxSnapshotDate: the retention-window cutoff for a frequency
(now minus maxCount periods; 28-day months, 364-day years). -/
def Config.GetMaxSnapshotDate (c : Config) (frequency : String) (now : Int) : Int :=
  if frequency = "hourly" then now - c.maxHourlySnapshots * 3600
  else if frequency = "daily" then now - c.maxDailySnapshots * 24 * 3600
  else if frequency = "weekly" then now - c.maxWeeklySnapshots * 7 * 24 * 3600
  else if frequency = "monthly" then now - (c.maxMonthlySnapshots * 4) * 7 * 24 * 3600
  else if frequency = "yearly" then now - (c.maxYearlySnapshots * 52) * 7 * 24 * 3600
  else now

/-- GetMinSnapshotDate: the freshness boundary for a frequency
(now minus one period; 28-day month, 364-day year). -/
def Config.GetMinSnapshotDate (_c : Config) (frequency : String) (now : Int) : Int :=
  if frequency = "hourly" then now - 3600
  else if frequency = "daily" then now - 24 * 3600
  else if frequency = "weekly" then now - 7 * 24 * 3600
  else if frequency = "monthly" then now - 4 * 7 * 24 * 3600
  else if frequency = "yearly" then now - 52 * 7 * 24 * 3600
  else now

/-- IsPoolAllowed: empty whitelist allows all pools. -/
def Config.IsPoolAllowed (c : Config) (poolName : String) : Bool :=
  if c.poolWhitelist.isEmpty then true else c.poolWhitelist.contains poolName

/-- IsFilesystemAllowed: empty whitelist allows all filesystems. -/
def Config.IsFilesystemAllowed (c : Config) (filesystemName : String) : Bool :=
  if c.filesystemWhitelist.isEmpty then true else c.filesystemWhitelist.contains filesystemName

/-- Modelled from the spec: `GetMaxSnapshotsForFrequency` is called at
pkg/operator/operator.go:936 but its definition is not among the source
files; per the specification (section 4.2) it returns the per-frequency
maximum retained period count from the configuration. -/
def Config.GetMaxSnapshotsForFrequency (c : Config) (frequency : String) : Nat :=
  if frequency = "hourly" then c.maxHourlySnapshots
  else if frequency = "daily" then c.maxDailySnapshots
  else if frequency = "weekly" then c.maxWeeklySnapshots
  else if frequency = "monthly" then c.maxMonthlySnapshots
  else if frequency = "yearly" then c.maxYearlySnapshots
  else 0

/-! ## ZFS predicates (pkg/zfs/zfs.go) -/

/-- IsSnapshotRecent: the snapshot carries the frequency label and its
creation time lies in the same time period as now (period-key equality). -/
def IsSnapshotRecent (s : Snapshot) (frequency : String) (now : Int) : Bool :=
  if s.frequency = "" ∨ s.frequency ≠ frequency then false
  else decide (GetTimePeriodKey s.dateTime frequency = GetTimePeriodKey now frequency)

/-- CanSnapshotBeDeleted: the snapshot carries the frequency label and its
creation time is before the retention cutoff. -/
def CanSnapshotBeDeleted (c : Config) (s : Snapshot) (frequency : String) (now : Int) : Bool :=
  if s.frequency = "" ∨ s.frequency ≠ frequency then false
  else decide (s.dateTime < c.GetMaxSnapshotDate frequency now)

/-- The filter loop of GetSnapshots: each of pool, filesystem and
frequency filters only when non-empty. -/
def GetSnapshotsFilter (all : List Snapshot) (poolName filesystemName frequency : String) :
    List Snapshot :=
  all.filter fun s =>
    if poolName ≠ "" ∧ s.poolName ≠ poolName then false
    else if filesystemName ≠ "" ∧ s.filesystemName ≠ filesystemName then false
    else if frequency ≠ "" ∧ s.frequency ≠ frequency then false
    else true

/-- IsPoolHealthy: a pool with no status entry is unhealthy; otherwise it
must be ONLINE with error count "0" or empty. -/
def IsPoolHealthy (poolName : String) (poolStatus : String → Option PoolStatus) : Bool :=
  match poolStatus poolName with
  | none => false
  | some status =>
    if status.state ≠ "ONLINE" then false
    else if status.errorCount ≠ "0" ∧ status.errorCount ≠ "" then false
    else true

/-- Claim C5 as stated is refuted at the empty frequency: a snapshot with
an empty frequency label evaluated against the empty frequency string has
equal period keys and a matching label field, yet IsSnapshotRecent returns
false (the source rejects empty labels before comparing keys). -/
theorem C5_counterexample :
    ¬ (IsSnapshotRecent ⟨"tank", "tank/data", "manual", mkTime 2026 1 25 12 0 0, ""⟩ ""
          (mkTime 2026 1 25 12 0 0) = true ↔
        ((Snapshot.mk "tank" "tank/data" "manual" (mkTime 2026 1 25 12 0 0) "").frequency = "" ∧
          GetTimePeriodKey (mkTime 2026 1 25 12 0 0) "" =
            GetTimePeriodKey (mkTime 2026 1 25 12 0 0) "")) := by
  decide

/-- Claim C5 (amended to non-empty frequencies): for every snapshot s,
non-empty frequency f and time now, IsSnapshotRecent returns true iff s
carries frequency label f and the period key of s's creation time equals
the period key of now — a period-key comparison, not a duration
comparison. -/
theorem C5_freshness_is_period_key_equality (s : Snapshot) (f : String) (now : Int)
    (hf : f ≠ "") :
    IsSnapshotRecent s f now = true ↔
      (s.frequency = f ∧
        GetTimePeriodKey s.dateTime f = GetTimePeriodKey now f) := by
  unfold IsSnapshotRecent
  by_cases hsf : s.frequency = f
  · rw [if_neg (by simp [hsf, hf])]
    simp [hsf]
  · rw [if_pos (Or.inr hsf)]
    simp [hsf]

/-- Witness for C5 (amended): a single hourly snapshot taken at 12:00:30
is not fresh at 13:00:05 — the hourly period keys differ, even though less
than one hour elapsed. -/
theorem C5_freshness_witness :
    IsSnapshotRecent
      ⟨"tank", "tank/data", "autosnap_2024-01-15_12:00:30_hourly",
        mkTime 2024 1 15 12 0 30, "hourly"⟩ "hourly" (mkTime 2024 1 15 13 0 5) = false := by
  have h := C5_freshness_is_period_key_equality
    ⟨"tank", "tank/data", "autosnap_2024-01-15_12:00:30_hourly",
      mkTime 2024 1 15 12 0 30, "hourly"⟩ "hourly" (mkTime 2024 1 15 13 0 5) (by decide)
  have hne : ¬ ((Snapshot.mk "tank" "tank/data" "autosnap_2024-01-15_12:00:30_hourly"
      (mkTime 2024 1 15 12 0 30) "hourly").frequency = "hourly" ∧
      GetTimePeriodKey (mkTime 2024 1 15 12 0 30) "hourly" =
        GetTimePeriodKey (mkTime 2024 1 15 13 0 5) "hourly") := by
    decide
  cases hb : IsSnapshotRecent
      ⟨"tank", "tank/data", "autosnap_2024-01-15_12:00:30_hourly",
        mkTime 2024 1 15 12 0 30, "hourly"⟩ "hourly" (mkTime 2024 1 15 13 0 5) with
  | false => rfl
  | true => exact absurd (h.mp hb) hne

/-! ## The classifier of processFrequency (pkg/operator/operator.go)

`processFrequency` sorts the snapshot list newest-first (`sort.Slice` with
an `After` comparator), maps each period key to the first snapshot of the
sorted list carrying it (the period's keeper), and then splits the sorted
list into `snapshotsToKeep` (keeper of its period and within the retention
window) and `snapshotsToDelete` (everything else).

`sort.Slice` is not a stable sort; on lists with pairwise distinct
creation times every comparison sort produces the same descending order,
and on the two-element tied lists considered below Go falls back to
insertion sort, which preserves input order exactly as the insertion sort
modelled here. -/

/-- Insert a snapshot into a list sorted by descending creation time,
after any element with an equal or later creation time. -/
def insertDesc (s : Snapshot) : List Snapshot → List Snapshot
  | [] => [s]
  | t :: rest => if s.dateTime ≤ t.dateTime then t :: insertDesc s rest else s :: t :: rest

/-- Sort snapshots by creation time, newest first. -/
def sortByNewest (l : List Snapshot) : List Snapshot :=
  l.foldl (fun acc s => insertDesc s acc) []

/-- Split a (sorted) snapshot list into keepers-within-retention and
deletion candidates; `seen` holds the period keys already claimed by an
earlier (hence newer) snapshot, mirroring the `periodMap` of the source
whose entry for a key is the first snapshot of the sorted list with that
key. -/
def classifyAux (f : String) (cutoff : Int) :
    List Snapshot → List PeriodKey → List Snapshot × List Snapshot
  | [], _ => ([], [])
  | s :: rest, seen =>
    let k := GetTimePeriodKey s.dateTime f
    let out := classifyAux f cutoff rest (k :: seen)
    if k ∉ seen ∧ cutoff ≤ s.dateTime then (s :: out.1, out.2)
    else (out.1, s :: out.2)

/-- The keep/delete split computed by one frequency pass:
`snapshotsToKeep` and `snapshotsToDelete` of the source. -/
def classifySnapshots (f : String) (cutoff : Int) (snapshots : List Snapshot) :
    List Snapshot × List Snapshot :=
  classifyAux f cutoff (sortByNewest snapshots) []

theorem insertDesc_perm (s : Snapshot) (l : List Snapshot) :
    List.Perm (insertDesc s l) (s :: l) := by
  induction l with
  | nil => exact List.Perm.refl _
  | cons t rest ih =>
    unfold insertDesc
    split
    · exact (ih.cons t).trans (List.Perm.swap s t rest)
    · exact List.Perm.refl _

theorem sortByNewest_perm (l : List Snapshot) : List.Perm (sortByNewest l) l := by
  have main : ∀ (l acc : List Snapshot),
      List.Perm (l.foldl (fun acc s => insertDesc s acc) acc) (l ++ acc) := by
    intro l
    induction l with
    | nil => intro acc; exact List.Perm.refl _
    | cons x xs ih =>
      intro acc
      have h1 : List.Perm ((x :: xs).foldl (fun acc s => insertDesc s acc) acc)
          (xs ++ insertDesc x acc) := ih (insertDesc x acc)
      have h2 : List.Perm (xs ++ insertDesc x acc) (xs ++ (x :: acc)) :=
        List.Perm.append_left xs (insertDesc_perm x acc)
      have h3 : List.Perm (xs ++ (x :: acc)) (x :: (xs ++ acc)) := List.perm_middle
      exact h1.trans (h2.trans h3)
  have h := main l []
  simpa using h

/-- Descending order on snapshot creation times. -/
def DescOrdered (l : List Snapshot) : Prop :=
  l.Pairwise (fun a b => b.dateTime ≤ a.dateTime)

theorem insertDesc_sorted (s : Snapshot) (l : List Snapshot) (h : DescOrdered l) :
    DescOrdered (insertDesc s l) := by
  induction l with
  | nil =>
    unfold insertDesc DescOrdered
    exact List.pairwise_singleton _ _
  | cons t rest ih =>
    unfold DescOrdered at h
    rw [List.pairwise_cons] at h
    obtain ⟨ht, hrest⟩ := h
    unfold insertDesc
    split
    · rename_i hle
      show List.Pairwise _ (t :: insertDesc s rest)
      rw [List.pairwise_cons]
      constructor
      · intro x hx
        rcases List.mem_cons.mp ((insertDesc_perm s rest).mem_iff.mp hx) with hxs | hxr
        · rw [hxs]; exact hle
        · exact ht x hxr
      · exact ih hrest
    · rename_i hgt
      show List.Pairwise _ (s :: t :: rest)
      rw [List.pairwise_cons]
      constructor
      · intro x hx
        rcases List.mem_cons.mp hx with hxt | hxr
        · rw [hxt]; omega
        · have := ht x hxr; omega
      · rw [List.pairwise_cons]
        exact ⟨ht, hrest⟩

theorem sortByNewest_sorted (l : List Snapshot) : DescOrdered (sortByNewest l) := by
  have main : ∀ (l acc : List Snapshot), DescOrdered acc →
      DescOrdered (l.foldl (fun acc s => insertDesc s acc) acc) := by
    intro l
    induction l with
    | nil => intro acc h; exact h
    | cons x xs ih =>
      intro acc h
      exact ih (insertDesc x acc) (insertDesc_sorted x acc h)
  exact main l [] List.Pairwise.nil

theorem classifyAux_perm (f : String) (cutoff : Int) (l : List Snapshot)
    (seen : List PeriodKey) :
    List.Perm ((classifyAux f cutoff l seen).1 ++ (classifyAux f cutoff l seen).2) l := by
  induction l generalizing seen with
  | nil => exact List.Perm.refl _
  | cons s rest ih =>
    unfold classifyAux
    dsimp only
    split
    · exact ((ih _).cons s)
    · exact List.perm_middle.trans ((ih _).cons s)

theorem classifyAux_keep_within (f : String) (cutoff : Int) (l : List Snapshot)
    (seen : List PeriodKey) (s : Snapshot) (hs : s ∈ (classifyAux f cutoff l seen).1) :
    cutoff ≤ s.dateTime := by
  induction l generalizing seen with
  | nil => exact absurd hs (List.not_mem_nil s)
  | cons t rest ih =>
    unfold classifyAux at hs
    dsimp only at hs
    split at hs
    · rename_i hcond
      rcases List.mem_cons.mp hs with hst | hsr
      · rw [hst]; exact hcond.2
      · exact ih _ hsr
    · exact ih _ hs

/-- When every snapshot of the list has a period key already claimed, the
whole list is classified for deletion. -/
theorem classifyAux_all_seen (f : String) (cutoff : Int) (l : List Snapshot)
    (seen : List PeriodKey) (h : ∀ s ∈ l, GetTimePeriodKey s.dateTime f ∈ seen) :
    classifyAux f cutoff l seen = ([], l) := by
  induction l generalizing seen with
  | nil => rfl
  | cons s rest ih =>
    unfold classifyAux
    dsimp only
    rw [if_neg (by
      intro hcond
      exact hcond.1 (h s (List.mem_cons_self s rest)))]
    rw [ih (GetTimePeriodKey s.dateTime f :: seen) (fun t ht =>
      List.mem_cons_of_mem _ (h t (List.mem_cons_of_mem _ ht)))]

/-- Claim C4: for snapshots with pairwise distinct timestamps sharing one
period key and lying within the retention window, the keep set is exactly
the singleton of the latest snapshot and everything else is in the delete
set; keep and delete are disjoint and partition the input; and any
snapshot dated before the retention cutoff (in particular a keeper of an
expired period) is placed in the delete set. -/
theorem C4_classifier_deduplication (l : List Snapshot) (f : String) (cutoff : Int)
    (k0 : PeriodKey) (hne : l ≠ [])
    (hkey : ∀ s ∈ l, GetTimePeriodKey s.dateTime f = k0)
    (hdist : l.Pairwise (fun a b => a.dateTime ≠ b.dateTime))
    (hwin : ∀ s ∈ l, cutoff ≤ s.dateTime) :
    (∃ m, m ∈ l ∧ (∀ t ∈ l, t ≠ m → t.dateTime < m.dateTime) ∧
      (classifySnapshots f cutoff l).1 = [m] ∧
      List.Perm (classifySnapshots f cutoff l).2 (l.erase m)) ∧
    (∀ t, ¬ (t ∈ (classifySnapshots f cutoff l).1 ∧ t ∈ (classifySnapshots f cutoff l).2)) ∧
    List.Perm ((classifySnapshots f cutoff l).1 ++ (classifySnapshots f cutoff l).2) l ∧
    (∀ (l' : List Snapshot) (s : Snapshot), s ∈ l' → s.dateTime < cutoff →
      s ∈ (classifySnapshots f cutoff l').2) := by
  have hperm := sortByNewest_perm l
  have hsorted := sortByNewest_sorted l
  have hdistL : (sortByNewest l).Pairwise (fun a b => a.dateTime ≠ b.dateTime) :=
    (hperm.pairwise_iff (fun h e => h e.symm)).mpr hdist
  obtain ⟨s, rest, hL⟩ : ∃ s rest, sortByNewest l = s :: rest := by
    cases hsn : sortByNewest l with
    | nil =>
      exfalso
      exact hne ((hsn ▸ hperm).symm.eq_nil)
    | cons a b => exact ⟨a, b, rfl⟩
  have hsl : s ∈ l := hperm.mem_iff.mp (hL ▸ List.mem_cons_self s rest)
  have hout : classifyAux f cutoff rest [GetTimePeriodKey s.dateTime f] = ([], rest) := by
    apply classifyAux_all_seen
    intro t ht
    have htl : t ∈ l := hperm.mem_iff.mp (hL ▸ List.mem_cons_of_mem s ht)
    rw [hkey t htl, ← hkey s hsl]
    exact List.mem_singleton.mpr rfl
  have hcls : classifySnapshots f cutoff l = ([s], rest) := by
    unfold classifySnapshots
    rw [hL]
    unfold classifyAux
    dsimp only
    rw [if_pos ⟨List.not_mem_nil _, hwin s hsl⟩, hout]
  have hstrict : ∀ t ∈ rest, t.dateTime < s.dateTime := by
    intro t ht
    have h1 : t.dateTime ≤ s.dateTime := by
      have := hsorted
      unfold DescOrdered at this
      rw [hL, List.pairwise_cons] at this
      exact this.1 t ht
    have h2 : s.dateTime ≠ t.dateTime := by
      rw [hL, List.pairwise_cons] at hdistL
      exact hdistL.1 t ht
    omega
  refine ⟨⟨s, hsl, ?_, by rw [hcls], ?_⟩, ?_, ?_, ?_⟩
  · intro t htl htne
    have : t ∈ sortByNewest l := hperm.mem_iff.mpr htl
    rw [hL] at this
    rcases List.mem_cons.mp this with h | h
    · exact absurd h htne
    · exact hstrict t h
  · rw [hcls]
    have : List.Perm (s :: rest) l := hL ▸ hperm
    exact (List.cons_perm_iff_perm_erase.mp this).2
  · intro t ⟨h1, h2⟩
    rw [hcls] at h1 h2
    have h3 : t = s := List.mem_singleton.mp h1
    rw [h3] at h2
    exact absurd rfl (ne_of_gt (hstrict s h2))
  · rw [hcls]
    have : List.Perm ([s] ++ rest) (sortByNewest l) := by rw [hL]; exact List.Perm.refl _
    exact this.trans hperm
  · intro l' t htl htlt
    have hp := (sortByNewest_perm l').symm.trans (classifyAux_perm f cutoff (sortByNewest l') []).symm
    have : t ∈ (classifyAux f cutoff (sortByNewest l') []).1 ++
        (classifyAux f cutoff (sortByNewest l') []).2 := hp.mem_iff.mp htl
    rcases List.mem_append.mp this with h | h
    · exact absurd (classifyAux_keep_within f cutoff (sortByNewest l') [] t h) (by omega)
    · exact h

/-- Witness for C4: the spec's concrete scenario — three yearly snapshots
dated 2024-01-01, 2024-06-15 and 2024-12-31 evaluated at 2026-01-25 with a
three-year window all share period key "2024"; the keeper is the latest. -/
theorem C4_classifier_deduplication_witness :
    ∃ m, m ∈ ([⟨"tank", "tank/data", "a", mkTime 2024 1 1 0 0 2, "yearly"⟩,
        ⟨"tank", "tank/data", "b", mkTime 2024 6 15 12 0 0, "yearly"⟩,
        ⟨"tank", "tank/data", "c", mkTime 2024 12 31 23 59 59, "yearly"⟩] : List Snapshot) ∧
      (classifySnapshots "yearly"
        (mkTime 2026 1 25 12 0 0 - 3 * 52 * 7 * 24 * 3600)
        [⟨"tank", "tank/data", "a", mkTime 2024 1 1 0 0 2, "yearly"⟩,
          ⟨"tank", "tank/data", "b", mkTime 2024 6 15 12 0 0, "yearly"⟩,
          ⟨"tank", "tank/data", "c", mkTime 2024 12 31 23 59 59, "yearly"⟩]).1 = [m] := by
  obtain ⟨⟨m, hm, _, hkeep, _⟩, _⟩ := C4_classifier_deduplication
    [⟨"tank", "tank/data", "a", mkTime 2024 1 1 0 0 2, "yearly"⟩,
      ⟨"tank", "tank/data", "b", mkTime 2024 6 15 12 0 0, "yearly"⟩,
      ⟨"tank", "tank/data", "c", mkTime 2024 12 31 23 59 59, "yearly"⟩]
    "yearly" (mkTime 2026 1 25 12 0 0 - 3 * 52 * 7 * 24 * 3600) (.yearly 2024)
    (by decide) (by decide) (by decide) (by decide)
  exact ⟨m, hm, hkeep⟩

/-- Claim C8 as stated is refuted: two snapshots sharing the exact same
timestamp and period swap keeper when the input order is reversed — the
source has no lexical-name secondary key, so the selection is not
invariant under reordering of the input. -/
theorem C8_counterexample :
    (classifySnapshots "hourly" (mkTime 2026 1 25 0 0 0)
        [⟨"tank", "tank/data", "b", mkTime 2026 1 25 14 0 0, "hourly"⟩,
          ⟨"tank", "tank/data", "a", mkTime 2026 1 25 14 0 0, "hourly"⟩]).1 ≠
      (classifySnapshots "hourly" (mkTime 2026 1 25 0 0 0)
        [⟨"tank", "tank/data", "a", mkTime 2026 1 25 14 0 0, "hourly"⟩,
          ⟨"tank", "tank/data", "b", mkTime 2026 1 25 14 0 0, "hourly"⟩]).1 := by
  decide

/-- Claim C8 (amended): for two snapshots with the exact same timestamp in
the same period and within the retention window, the keeper is the one
occurring first in the input list (the unstable sort leaves a two-element
tie in input order and the period map keeps the first of the sorted list);
no lexical tie-break on the snapshot name takes place. -/
theorem C8_tie_break_follows_input_order (a b : Snapshot) (f : String) (cutoff : Int)
    (ht : a.dateTime = b.dateTime) (hwin : cutoff ≤ a.dateTime) :
    (classifySnapshots f cutoff [a, b]).1 = [a] ∧
    (classifySnapshots f cutoff [a, b]).2 = [b] := by
  have hsort : sortByNewest [a, b] = [a, b] := by
    unfold sortByNewest
    simp only [List.foldl_cons, List.foldl_nil]
    have h1 : insertDesc a [] = [a] := rfl
    rw [h1]
    unfold insertDesc
    rw [if_pos (by omega : b.dateTime ≤ a.dateTime)]
    rfl
  have hkeq : GetTimePeriodKey b.dateTime f = GetTimePeriodKey a.dateTime f := by rw [ht]
  unfold classifySnapshots
  rw [hsort]
  unfold classifyAux
  dsimp only
  rw [if_pos ⟨List.not_mem_nil _, hwin⟩]
  unfold classifyAux
  dsimp only
  rw [if_neg (by
    intro hcond
    exact hcond.1 (by rw [hkeq]; exact List.mem_cons_self _ _))]
  exact ⟨rfl, rfl⟩

/-- Witness for C8 (amended): a concrete tied pair, keeper is the first. -/
theorem C8_tie_break_witness :
    (classifySnapshots "hourly" (mkTime 2026 1 25 0 0 0)
        [⟨"tank", "tank/data", "b", mkTime 2026 1 25 14 0 0, "hourly"⟩,
          ⟨"tank", "tank/data", "a", mkTime 2026 1 25 14 0 0, "hourly"⟩]).1 =
      [⟨"tank", "tank/data", "b", mkTime 2026 1 25 14 0 0, "hourly"⟩] :=
  (C8_tie_break_follows_input_order
    ⟨"tank", "tank/data", "b", mkTime 2026 1 25 14 0 0, "hourly"⟩
    ⟨"tank", "tank/data", "a", mkTime 2026 1 25 14 0 0, "hourly"⟩
    "hourly" (mkTime 2026 1 25 0 0 0) rfl (by decide)).1

/-- Claim C9: a snapshot with an empty frequency label is invisible to the
retention engine: IsSnapshotRecent and CanSnapshotBeDeleted return false
for it, GetSnapshots with a non-empty frequency filter never returns it,
and it appears in neither the keep nor the delete set of a frequency pass
over such a filtered listing. -/
theorem C9_foreign_snapshots_invisible (s : Snapshot) (hs : s.frequency = "") :
    (∀ f now, IsSnapshotRecent s f now = false) ∧
    (∀ cfg f now, CanSnapshotBeDeleted cfg s f now = false) ∧
    (∀ all p fs f, f ≠ "" → s ∉ GetSnapshotsFilter all p fs f) ∧
    (∀ all p fs f cutoff, f ≠ "" →
      s ∉ (classifySnapshots f cutoff (GetSnapshotsFilter all p fs f)).1 ∧
      s ∉ (classifySnapshots f cutoff (GetSnapshotsFilter all p fs f)).2) := by
  have hfilter : ∀ (all : List Snapshot) (p fs f : String), f ≠ "" →
      s ∉ GetSnapshotsFilter all p fs f := by
    intro all p fs f hf hmem
    have hpred := (List.mem_filter.mp hmem).2
    split_ifs at hpred with h1 h2 h3
    exact h3 ⟨hf, by rw [hs]; exact fun h' => hf h'.symm⟩
  refine ⟨?_, ?_, hfilter, ?_⟩
  · intro f now
    unfold IsSnapshotRecent
    rw [if_pos (Or.inl hs)]
  · intro cfg f now
    unfold CanSnapshotBeDeleted
    rw [if_pos (Or.inl hs)]
  · intro all p fs f cutoff hf
    have hnotin := hfilter all p fs f hf
    set L := GetSnapshotsFilter all p fs f with hLdef
    have hp := (sortByNewest_perm L).symm.trans (classifyAux_perm f cutoff (sortByNewest L) []).symm
    constructor
    · intro hk
      exact hnotin (hp.symm.mem_iff.mp (List.mem_append.mpr (Or.inl hk)))
    · intro hd
      exact hnotin (hp.symm.mem_iff.mp (List.mem_append.mpr (Or.inr hd)))

/-- Witness for C9: a concrete foreign snapshot is invisible. -/
theorem C9_foreign_snapshots_witness :
    IsSnapshotRecent ⟨"tank", "tank/data", "manual", mkTime 2026 1 25 12 0 0, ""⟩
        "hourly" (mkTime 2026 1 25 12 0 0) = false ∧
    CanSnapshotBeDeleted ⟨false, 100, 24, 7, 4, 12, 3, [], [], "autosnap"⟩
        ⟨"tank", "tank/data", "manual", mkTime 2026 1 25 12 0 0, ""⟩
        "hourly" (mkTime 2026 1 25 12 0 0) = false ∧
    ⟨"tank", "tank/data", "manual", mkTime 2026 1 25 12 0 0, ""⟩ ∉
      GetSnapshotsFilter [⟨"tank", "tank/data", "manual", mkTime 2026 1 25 12 0 0, ""⟩]
        "tank" "tank/data" "hourly" := by
  have h := C9_foreign_snapshots_invisible
    ⟨"tank", "tank/data", "manual", mkTime 2026 1 25 12 0 0, ""⟩ rfl
  exact ⟨h.1 "hourly" (mkTime 2026 1 25 12 0 0),
    h.2.1 ⟨false, 100, 24, 7, 4, 12, 3, [], [], "autosnap"⟩ "hourly" (mkTime 2026 1 25 12 0 0),
    h.2.2.1 [⟨"tank", "tank/data", "manual", mkTime 2026 1 25 12 0 0, ""⟩]
      "tank" "tank/data" "hourly" (by decide)⟩

/-! ## The create-then-delete sequencer (pkg/operator/operator.go)

The external zfs command layer is abstracted into an environment giving
the outcome of each listing, creation and deletion the binaries would
perform; the operator functions become pure functions of it. -/

/-- Outcomes of the external zfs commands during one run. -/
structure Env where
  getSnapshots : String → String → String → Option (List Snapshot)
  createOk : Snapshot → Bool
  deleteOk : Snapshot → Bool

/-- Outcome of one frequency pass: whether an error was returned, the
delete and create calls issued (in order), the computed keep/delete
classification, and the updated run counters. -/
structure FreqOutcome where
  err : Bool
  deleteCalls : List Snapshot
  createCalls : List Snapshot
  toKeep : List Snapshot
  toDelete : List Snapshot
  deletionCount : Nat
  creationCount : Nat
deriving DecidableEq

/-- The budgeted deletion loop of processFrequency: stop at the per-run
limit, advance the counter without calling out in dry-run mode, otherwise
issue the delete call and count it only on success. -/
def deleteLoop (cfg : Config) (env : Env) : List Snapshot → Nat → List Snapshot × Nat
  | [], dc => ([], dc)
  | s :: rest, dc =>
    if cfg.maxDeletionsPerRun ≤ dc then ([], dc)
    else if cfg.dryRun then deleteLoop cfg env rest (dc + 1)
    else if env.deleteOk s then
      let out := deleteLoop cfg env rest (dc + 1)
      (s :: out.1, out.2)
    else
      let out := deleteLoop cfg env rest dc
      (s :: out.1, out.2)

/-- The cleanup loop of the disabled-frequency branch (maxCount == 0):
every existing snapshot is deleted, with no budget check; in dry-run mode
the deletion is only logged and the counter does not advance. -/
def deleteAllLoop (cfg : Config) (env : Env) : List Snapshot → Nat → List Snapshot × Nat
  | [], dc => ([], dc)
  | s :: rest, dc =>
    if cfg.dryRun then deleteAllLoop cfg env rest dc
    else if env.deleteOk s then
      let out := deleteAllLoop cfg env rest (dc + 1)
      (s :: out.1, out.2)
    else
      let out := deleteAllLoop cfg env rest dc
      (s :: out.1, out.2)

/-- Two-digit zero padding (Go format "01", "02", "15", "04", "05"). -/
def pad2 (n : Int) : String := if n < 10 then "0" ++ toString n else toString n

/-- Go layout "2006-01-02_15:04:05". -/
def formatDateTime (t : Int) : String :=
  toString (yearOf t) ++ "-" ++ pad2 (monthOf t) ++ "-" ++ pad2 (dayOf t) ++ "_" ++
    pad2 (hourOf t) ++ ":" ++ pad2 (minuteOf t) ++ ":" ++ pad2 (secondOf t)

/-- The deterministic name of a newly created snapshot:
prefix, formatted timestamp, frequency tag. -/
def mkSnapshotName (cfg : Config) (now : Int) (frequency : String) : String :=
  cfg.prefixName ++ "_" ++ formatDateTime now ++ "_" ++ frequency

/-- One frequency pass of the sequencer (processFrequency,
pkg/operator/operator.go): disabled frequencies only clean up; otherwise
classify, check freshness by period key, create first when no fresh
snapshot exists (aborting with no deletions if the creation call fails),
then run the budgeted deletion loop. -/
def processFrequency (cfg : Config) (env : Env) (pool : Pool) (frequency : String)
    (now : Int) (dc cc : Nat) : FreqOutcome :=
  let maxCount := cfg.GetMaxSnapshotsForFrequency frequency
  if maxCount = 0 then
    match env.getSnapshots pool.poolName pool.filesystemName frequency with
    | none => ⟨true, [], [], [], [], dc, cc⟩
    | some snapshots =>
      let out := deleteAllLoop cfg env snapshots dc
      ⟨false, out.1, [], [], [], out.2, cc⟩
  else
    match env.getSnapshots pool.poolName pool.filesystemName frequency with
    | none => ⟨true, [], [], [], [], dc, cc⟩
    | some snapshots =>
      let retentionCutoff := cfg.GetMaxSnapshotDate frequency now
      let cls := classifySnapshots frequency retentionCutoff snapshots
      let hasRecent := snapshots.any (fun s => IsSnapshotRecent s frequency now)
      if hasRecent then
        let out := deleteLoop cfg env cls.2 dc
        ⟨false, out.1, [], cls.1, cls.2, out.2, cc⟩
      else
        let newSnapshot : Snapshot :=
          ⟨pool.poolName, pool.filesystemName, mkSnapshotName cfg now frequency, now, frequency⟩
        if cfg.dryRun then
          let out := deleteLoop cfg env cls.2 dc
          ⟨false, out.1, [], cls.1, cls.2, out.2, cc + 1⟩
        else if env.createOk newSnapshot then
          let out := deleteLoop cfg env cls.2 dc
          ⟨false, out.1, [newSnapshot], cls.1, cls.2, out.2, cc + 1⟩
        else
          ⟨true, [], [newSnapshot], cls.1, cls.2, dc, cc⟩

/-- The snapshots existing after a pass: the fetched snapshots minus the
successful deletions, plus the successful creations. -/
def survivors (env : Env) (snapshots : List Snapshot) (r : FreqOutcome) : List Snapshot :=
  snapshots.filter (fun s => !(decide (s ∈ r.deleteCalls) && env.deleteOk s)) ++
    r.createCalls.filter env.createOk

/-- Claim C1: in every frequency pass in which the snapshot-creation call
fails, the pass returns the error and issues zero delete calls, whatever
snapshots were eligible for deletion: the existing snapshot set is
unchanged on a create error. -/
theorem C1_no_delete_after_failed_create (cfg : Config) (env : Env) (pool : Pool)
    (f : String) (now : Int) (dc cc : Nat) (snaps : List Snapshot)
    (hmax : cfg.GetMaxSnapshotsForFrequency f ≠ 0)
    (hget : env.getSnapshots pool.poolName pool.filesystemName f = some snaps)
    (hdry : cfg.dryRun = false)
    (hnorecent : ∀ s ∈ snaps, IsSnapshotRecent s f now = false)
    (hfail : env.createOk
      ⟨pool.poolName, pool.filesystemName, mkSnapshotName cfg now f, now, f⟩ = false) :
    (processFrequency cfg env pool f now dc cc).err = true ∧
    (processFrequency cfg env pool f now dc cc).deleteCalls = [] ∧
    (processFrequency cfg env pool f now dc cc).deletionCount = dc ∧
    survivors env snaps (processFrequency cfg env pool f now dc cc) = snaps := by
  have hrec : snaps.any (fun s => IsSnapshotRecent s f now) = false := by
    rw [List.any_eq_false]
    intro s hsmem
    rw [hnorecent s hsmem]
    exact Bool.false_ne_true
  unfold processFrequency
  rw [if_neg hmax, hget]
  dsimp only
  rw [hrec]
  rw [if_neg Bool.false_ne_true, if_neg (by rw [hdry]; exact Bool.false_ne_true),
    if_neg (by rw [hfail]; exact Bool.false_ne_true)]
  refine ⟨rfl, rfl, rfl, ?_⟩
  unfold survivors
  dsimp only
  have h1 : List.filter (fun s => !(decide (s ∈ ([] : List Snapshot)) && env.deleteOk s)) snaps
      = snaps :=
    List.filter_eq_self.mpr (by intro s _; simp)
  rw [h1]
  have h2 : List.filter env.createOk
      [(⟨pool.poolName, pool.filesystemName, mkSnapshotName cfg now f, now, f⟩ : Snapshot)]
      = [] := by
    simp [hfail]
  rw [h2]
  exact List.append_nil snaps

/-- Witness for C1: a concrete failing creation aborts with no deletions. -/
theorem C1_no_delete_after_failed_create_witness :
    (processFrequency ⟨false, 100, 24, 7, 4, 12, 3, [], [], "autosnap"⟩
      ⟨fun _ _ _ => some [⟨"tank", "tank/data", "old", mkTime 2020 6 1 0 0 0, "yearly"⟩],
        fun _ => false, fun _ => true⟩
      ⟨"tank", "tank/data", "100G", "900G", "/tank"⟩ "yearly"
      (mkTime 2026 1 25 12 0 0) 0 0).err = true ∧
    (processFrequency ⟨false, 100, 24, 7, 4, 12, 3, [], [], "autosnap"⟩
      ⟨fun _ _ _ => some [⟨"tank", "tank/data", "old", mkTime 2020 6 1 0 0 0, "yearly"⟩],
        fun _ => false, fun _ => true⟩
      ⟨"tank", "tank/data", "100G", "900G", "/tank"⟩ "yearly"
      (mkTime 2026 1 25 12 0 0) 0 0).deleteCalls = [] := by
  have h := C1_no_delete_after_failed_create
    ⟨false, 100, 24, 7, 4, 12, 3, [], [], "autosnap"⟩
    ⟨fun _ _ _ => some [⟨"tank", "tank/data", "old", mkTime 2020 6 1 0 0 0, "yearly"⟩],
      fun _ => false, fun _ => true⟩
    ⟨"tank", "tank/data", "100G", "900G", "/tank"⟩ "yearly"
    (mkTime 2026 1 25 12 0 0) 0 0
    [⟨"tank", "tank/data", "old", mkTime 2020 6 1 0 0 0, "yearly"⟩]
    (by decide) rfl rfl (by decide) rfl
  exact ⟨h.1, h.2.1⟩

/-- Claim C2 as stated is refuted: with every existing snapshot classified
for deletion (keep empty, delete non-empty), no fresh snapshot and a
creation that fails (so none will exist), the pass's keep set stays empty
— the current source has no guard moving the most recent snapshot back
from delete to keep. -/
theorem C2_counterexample :
    ((processFrequency ⟨false, 100, 24, 7, 4, 12, 3, [], [], "autosnap"⟩
        ⟨fun _ _ _ => some [⟨"tank", "tank/data", "old1", mkTime 2020 6 1 0 0 0, "yearly"⟩,
            ⟨"tank", "tank/data", "old2", mkTime 2021 6 1 0 0 0, "yearly"⟩],
          fun _ => false, fun _ => true⟩
        ⟨"tank", "tank/data", "100G", "900G", "/tank"⟩ "yearly"
        (mkTime 2026 1 25 12 0 0) 0 0).toDelete ≠ []) ∧
    (List.all [(⟨"tank", "tank/data", "old1", mkTime 2020 6 1 0 0 0, "yearly"⟩ : Snapshot),
        ⟨"tank", "tank/data", "old2", mkTime 2021 6 1 0 0 0, "yearly"⟩]
      (fun s => !IsSnapshotRecent s "yearly" (mkTime 2026 1 25 12 0 0)) = true) ∧
    ((processFrequency ⟨false, 100, 24, 7, 4, 12, 3, [], [], "autosnap"⟩
        ⟨fun _ _ _ => some [⟨"tank", "tank/data", "old1", mkTime 2020 6 1 0 0 0, "yearly"⟩,
            ⟨"tank", "tank/data", "old2", mkTime 2021 6 1 0 0 0, "yearly"⟩],
          fun _ => false, fun _ => true⟩
        ⟨"tank", "tank/data", "100G", "900G", "/tank"⟩ "yearly"
        (mkTime 2026 1 25 12 0 0) 0 0).err = true) ∧
    ((processFrequency ⟨false, 100, 24, 7, 4, 12, 3, [], [], "autosnap"⟩
        ⟨fun _ _ _ => some [⟨"tank", "tank/data", "old1", mkTime 2020 6 1 0 0 0, "yearly"⟩,
            ⟨"tank", "tank/data", "old2", mkTime 2021 6 1 0 0 0, "yearly"⟩],
          fun _ => false, fun _ => true⟩
        ⟨"tank", "tank/data", "100G", "900G", "/tank"⟩ "yearly"
        (mkTime 2026 1 25 12 0 0) 0 0).toKeep = []) := by
  decide

/-- Claim C2 (amended): the classifier itself may leave the keep set empty
— the safeguard is the sequencing: when no fresh snapshot exists, a
creation is attempted before any deletion, a failed creation aborts the
pass with zero delete calls, and whenever any delete call is issued the
pass leaves at least one snapshot in existence (the successfully created
replacement). -/
theorem C2_pass_never_ends_empty (cfg : Config) (env : Env) (pool : Pool)
    (f : String) (now : Int) (dc cc : Nat) (snaps : List Snapshot)
    (hmax : cfg.GetMaxSnapshotsForFrequency f ≠ 0)
    (hget : env.getSnapshots pool.poolName pool.filesystemName f = some snaps)
    (hdry : cfg.dryRun = false)
    (hnorecent : ∀ s ∈ snaps, IsSnapshotRecent s f now = false) :
    (processFrequency cfg env pool f now dc cc).deleteCalls ≠ [] →
      survivors env snaps (processFrequency cfg env pool f now dc cc) ≠ [] := by
  have hrec : snaps.any (fun s => IsSnapshotRecent s f now) = false := by
    rw [List.any_eq_false]
    intro s hsmem
    rw [hnorecent s hsmem]
    exact Bool.false_ne_true
  unfold processFrequency
  rw [if_neg hmax, hget]
  dsimp only
  rw [hrec]
  rw [if_neg Bool.false_ne_true, if_neg (by rw [hdry]; exact Bool.false_ne_true)]
  by_cases hc : env.createOk
      ⟨pool.poolName, pool.filesystemName, mkSnapshotName cfg now f, now, f⟩ = true
  · rw [if_pos hc]
    intro _ hnil
    unfold survivors at hnil
    dsimp only at hnil
    have hlen := congrArg List.length hnil
    rw [List.length_append] at hlen
    have hone : (List.filter env.createOk
        [(⟨pool.poolName, pool.filesystemName, mkSnapshotName cfg now f, now, f⟩ :
          Snapshot)]).length = 1 := by
      simp [hc]
    simp only [List.length_nil] at hlen
    omega
  · rw [if_neg hc]
    intro hne
    exact absurd rfl hne

/-- Witness for C2 (amended): with a successful creation the pass deletes
the expired snapshot yet a snapshot (the new one) survives. -/
theorem C2_pass_never_ends_empty_witness :
    survivors
      ⟨fun _ _ _ => some [⟨"tank", "tank/data", "old1", mkTime 2020 6 1 0 0 0, "yearly"⟩],
        fun _ => true, fun _ => true⟩
      [⟨"tank", "tank/data", "old1", mkTime 2020 6 1 0 0 0, "yearly"⟩]
      (processFrequency ⟨false, 100, 24, 7, 4, 12, 3, [], [], "autosnap"⟩
        ⟨fun _ _ _ => some [⟨"tank", "tank/data", "old1", mkTime 2020 6 1 0 0 0, "yearly"⟩],
          fun _ => true, fun _ => true⟩
        ⟨"tank", "tank/data", "100G", "900G", "/tank"⟩ "yearly"
        (mkTime 2026 1 25 12 0 0) 0 0) ≠ [] := by
  exact C2_pass_never_ends_empty
    ⟨false, 100, 24, 7, 4, 12, 3, [], [], "autosnap"⟩
    ⟨fun _ _ _ => some [⟨"tank", "tank/data", "old1", mkTime 2020 6 1 0 0 0, "yearly"⟩],
      fun _ => true, fun _ => true⟩
    ⟨"tank", "tank/data", "100G", "900G", "/tank"⟩ "yearly"
    (mkTime 2026 1 25 12 0 0) 0 0
    [⟨"tank", "tank/data", "old1", mkTime 2020 6 1 0 0 0, "yearly"⟩]
    (by decide) rfl rfl (by decide) (by decide)

/-! ## The run coordinator (pkg/operator/operator.go)

`processPool` skips pools outside the whitelist, returns an error for
unhealthy pools, skips pool roots and non-whitelisted filesystems, and
otherwise runs every configured frequency, logging and dropping individual
frequency errors.  The pool loop of `Run` accumulates per-pool errors and
returns a failure exactly when the accumulated list is non-empty. -/

/-- Outcome of processing one pool. -/
structure PoolOutcome where
  err : Bool
  deleteCalls : List Snapshot
  createCalls : List Snapshot
  deletionCount : Nat
  creationCount : Nat
deriving DecidableEq

/-- The frequency loop body of processPool: run the pass with the current
counters; an error from the pass is logged and dropped. -/
def freqStep (cfg : Config) (env : Env) (pool : Pool) (now : Int)
    (acc : PoolOutcome) (f : String) : PoolOutcome :=
  let r := processFrequency cfg env pool f now acc.deletionCount acc.creationCount
  ⟨false, acc.deleteCalls ++ r.deleteCalls, acc.createCalls ++ r.createCalls,
    r.deletionCount, r.creationCount⟩

/-- processPool (pkg/operator/operator.go). -/
def processPool (cfg : Config) (env : Env) (pool : Pool) (now : Int)
    (poolStatus : String → Option PoolStatus) (dc cc : Nat) : PoolOutcome :=
  if cfg.IsPoolAllowed pool.poolName = false then ⟨false, [], [], dc, cc⟩
  else if IsPoolHealthy pool.poolName poolStatus = false then ⟨true, [], [], dc, cc⟩
  else if pool.filesystemName = "" then ⟨false, [], [], dc, cc⟩
  else if cfg.IsFilesystemAllowed pool.filesystemName = false then ⟨false, [], [], dc, cc⟩
  else Frequencies.foldl (freqStep cfg env pool now) ⟨false, [], [], dc, cc⟩

/-- Outcome of the pool loop of Run. -/
structure RunOutcome where
  failed : Bool
  errCount : Nat
  processedPools : List String
  deleteCalls : List Snapshot
  createCalls : List Snapshot
  deletionCount : Nat
  creationCount : Nat
deriving DecidableEq

/-- The pool loop body of Run: process the pool, record its name, and
append an entry to the error list when it returned an error. -/
def poolStep (cfg : Config) (env : Env) (now : Int)
    (poolStatus : String → Option PoolStatus) (acc : RunOutcome) (pool : Pool) : RunOutcome :=
  let r := processPool cfg env pool now poolStatus acc.deletionCount acc.creationCount
  ⟨false, acc.errCount + (if r.err = true then 1 else 0), acc.processedPools ++ [pool.poolName],
    acc.deleteCalls ++ r.deleteCalls, acc.createCalls ++ r.createCalls,
    r.deletionCount, r.creationCount⟩

/-- The pool loop of Run: counters start at zero, every pool is processed,
and the run reports failure exactly when the accumulated error list is
non-empty. -/
def runPools (cfg : Config) (env : Env) (pools : List Pool) (now : Int)
    (poolStatus : String → Option PoolStatus) : RunOutcome :=
  let acc := pools.foldl (poolStep cfg env now poolStatus) ⟨false, 0, [], [], [], 0, 0⟩
  ⟨decide (acc.errCount ≠ 0), acc.errCount, acc.processedPools, acc.deleteCalls,
    acc.createCalls, acc.deletionCount, acc.creationCount⟩

theorem freqFold_err (cfg : Config) (env : Env) (pool : Pool) (now : Int)
    (fs : List String) (acc : PoolOutcome) (hacc : acc.err = false) :
    (fs.foldl (freqStep cfg env pool now) acc).err = false := by
  induction fs generalizing acc with
  | nil => exact hacc
  | cons f rest ih => exact ih (freqStep cfg env pool now acc f) rfl

/-- processPool returns an error exactly for a whitelisted pool that fails
the health check. -/
theorem processPool_err (cfg : Config) (env : Env) (pool : Pool) (now : Int)
    (st : String → Option PoolStatus) (dc cc : Nat) :
    (processPool cfg env pool now st dc cc).err =
      (cfg.IsPoolAllowed pool.poolName && !(IsPoolHealthy pool.poolName st)) := by
  unfold processPool
  by_cases h1 : cfg.IsPoolAllowed pool.poolName = false
  · rw [if_pos h1, h1]
    rfl
  · have h1' : cfg.IsPoolAllowed pool.poolName = true := by
      cases hx : cfg.IsPoolAllowed pool.poolName
      · exact absurd hx h1
      · rfl
    rw [if_neg h1, h1']
    by_cases h2 : IsPoolHealthy pool.poolName st = false
    · rw [if_pos h2, h2]
      rfl
    · have h2' : IsPoolHealthy pool.poolName st = true := by
        cases hx : IsPoolHealthy pool.poolName st
        · exact absurd hx h2
        · rfl
      rw [if_neg h2, h2']
      by_cases h3 : pool.filesystemName = ""
      · rw [if_pos h3]
        rfl
      · rw [if_neg h3]
        by_cases h4 : cfg.IsFilesystemAllowed pool.filesystemName = false
        · rw [if_pos h4]
          rfl
        · rw [if_neg h4]
          rw [freqFold_err cfg env pool now Frequencies _ rfl]
          rfl

theorem runFold_spec (cfg : Config) (env : Env) (now : Int)
    (st : String → Option PoolStatus) (pools : List Pool) (acc : RunOutcome) :
    (pools.foldl (poolStep cfg env now st) acc).processedPools =
        acc.processedPools ++ pools.map (fun p => p.poolName) ∧
    (pools.foldl (poolStep cfg env now st) acc).errCount =
        acc.errCount + pools.countP
          (fun p => cfg.IsPoolAllowed p.poolName && !(IsPoolHealthy p.poolName st)) := by
  induction pools generalizing acc with
  | nil => simp
  | cons p ps ih =>
    obtain ⟨ih1, ih2⟩ := ih (poolStep cfg env now st acc p)
    constructor
    · rw [List.foldl_cons, ih1]
      show (acc.processedPools ++ [p.poolName]) ++ _ = _
      rw [List.map_cons, List.append_assoc]
      rfl
    · rw [List.foldl_cons, ih2]
      show acc.errCount + (if (processPool cfg env p now st
          acc.deletionCount acc.creationCount).err = true then 1 else 0) + _ = _
      rw [processPool_err, List.countP_cons]
      by_cases hp : (cfg.IsPoolAllowed p.poolName && !(IsPoolHealthy p.poolName st)) = true
      · rw [if_pos hp]
        omega
      · rw [if_neg hp]
        omega

/-- Claim C7 (amended): the pool loop of Run processes every pool,
accumulates one error per whitelisted pool failing its health check, and
returns a failure exactly when the accumulated error count is non-zero; a
pool's error never halts the pass over the other pools.  Frequency-level
errors inside a pool (such as a snapshot-listing failure) are logged and
dropped, not accumulated. -/
theorem C7_run_error_accumulation (cfg : Config) (env : Env) (pools : List Pool)
    (now : Int) (st : String → Option PoolStatus) :
    (runPools cfg env pools now st).processedPools = pools.map (fun p => p.poolName) ∧
    ((runPools cfg env pools now st).failed = true ↔
      (runPools cfg env pools now st).errCount ≠ 0) ∧
    (runPools cfg env pools now st).errCount =
      pools.countP (fun p => cfg.IsPoolAllowed p.poolName && !(IsPoolHealthy p.poolName st)) := by
  obtain ⟨h1, h2⟩ := runFold_spec cfg env now st pools ⟨false, 0, [], [], [], 0, 0⟩
  unfold runPools
  refine ⟨by rw [h1]; rfl, ?_, by rw [h2]; exact Nat.zero_add _⟩
  simp

/-- Claim C7 as stated is refuted on the snapshot-listing clause: a run
over one whitelisted, healthy pool whose snapshot listing always fails
accumulates no error and reports success — the listing failure aborts only
the frequency passes, is logged by processPool and dropped. -/
theorem C7_counterexample :
    ((runPools ⟨false, 100, 24, 7, 4, 12, 3, [], [], "autosnap"⟩
        ⟨fun _ _ _ => none, fun _ => true, fun _ => true⟩
        [⟨"tank", "tank/data", "100G", "900G", "/tank"⟩] (mkTime 2026 1 25 12 0 0)
        (fun n => if n = "tank" then
          some ⟨"tank", "ONLINE", "", "", "0", 0, "none", "", "", "", "0", "0", "0"⟩
          else none)).failed = false) ∧
    ((runPools ⟨false, 100, 24, 7, 4, 12, 3, [], [], "autosnap"⟩
        ⟨fun _ _ _ => none, fun _ => true, fun _ => true⟩
        [⟨"tank", "tank/data", "100G", "900G", "/tank"⟩] (mkTime 2026 1 25 12 0 0)
        (fun n => if n = "tank" then
          some ⟨"tank", "ONLINE", "", "", "0", 0, "none", "", "", "", "0", "0", "0"⟩
          else none)).errCount = 0) := by
  decide

/-- Claim C10: a pool with no entry in the health-status map is treated as
unhealthy, so processPool performs no snapshot creation or deletion for it
and returns an error. -/
theorem C10_missing_status_is_unhealthy (cfg : Config) (env : Env) (pool : Pool)
    (now : Int) (st : String → Option PoolStatus) (dc cc : Nat)
    (hmiss : st pool.poolName = none)
    (hallow : cfg.IsPoolAllowed pool.poolName = true) :
    IsPoolHealthy pool.poolName st = false ∧
    (processPool cfg env pool now st dc cc).err = true ∧
    (processPool cfg env pool now st dc cc).deleteCalls = [] ∧
    (processPool cfg env pool now st dc cc).createCalls = [] := by
  have hhealth : IsPoolHealthy pool.poolName st = false := by
    unfold IsPoolHealthy
    rw [hmiss]
  refine ⟨hhealth, ?_, ?_, ?_⟩ <;>
    · unfold processPool
      rw [if_neg (by rw [hallow]; exact fun h => nomatch h), if_pos hhealth]

/-- Witness for C10: a concrete pool absent from the status map. -/
theorem C10_missing_status_witness :
    IsPoolHealthy "tank" (fun _ => none) = false ∧
    (processPool ⟨false, 100, 24, 7, 4, 12, 3, [], [], "autosnap"⟩
      ⟨fun _ _ _ => some [], fun _ => true, fun _ => true⟩
      ⟨"tank", "tank/data", "100G", "900G", "/tank"⟩ (mkTime 2026 1 25 12 0 0)
      (fun _ => none) 0 0).err = true := by
  have h := C10_missing_status_is_unhealthy
    ⟨false, 100, 24, 7, 4, 12, 3, [], [], "autosnap"⟩
    ⟨fun _ _ _ => some [], fun _ => true, fun _ => true⟩
    ⟨"tank", "tank/data", "100G", "900G", "/tank"⟩ (mkTime 2026 1 25 12 0 0)
    (fun _ => none) 0 0 rfl (by decide)
  exact ⟨h.1, h.2.1⟩

/-! ## The per-run deletion budget -/

/-- Number of deletion candidates one frequency pass computes. -/
def eligibleFreq (cfg : Config) (env : Env) (pool : Pool) (f : String) (now : Int) : Nat :=
  match env.getSnapshots pool.poolName pool.filesystemName f with
  | none => 0
  | some snaps => (classifySnapshots f (cfg.GetMaxSnapshotDate f now) snaps).2.length

/-- Deletion candidates over all frequencies of one pool. -/
def eligiblePool (cfg : Config) (env : Env) (pool : Pool) (now : Int) : Nat :=
  (Frequencies.map (fun f => eligibleFreq cfg env pool f now)).sum

/-- Deletion candidates over the whole run. -/
def eligibleRun (cfg : Config) (env : Env) (pools : List Pool) (now : Int) : Nat :=
  (pools.map (fun p => eligiblePool cfg env p now)).sum

/-- The budgeted deletion loop issues exactly the budget-limited number of
delete calls when none fail and dry-run is off. -/
theorem deleteLoop_budget (cfg : Config) (env : Env)
    (hdry : cfg.dryRun = false) (hdel : ∀ s, env.deleteOk s = true)
    (l : List Snapshot) (dc : Nat) (hdc : dc ≤ cfg.maxDeletionsPerRun) :
    (deleteLoop cfg env l dc).2 = min (dc + l.length) cfg.maxDeletionsPerRun ∧
    (deleteLoop cfg env l dc).1.length = min (dc + l.length) cfg.maxDeletionsPerRun - dc := by
  induction l generalizing dc with
  | nil =>
    unfold deleteLoop
    constructor
    · show dc = _
      simp only [List.length_nil]
      omega
    · show ([] : List Snapshot).length = _
      simp only [List.length_nil]
      omega
  | cons s rest ih =>
    unfold deleteLoop
    by_cases hK : cfg.maxDeletionsPerRun ≤ dc
    · rw [if_pos hK]
      constructor
      · show dc = _
        simp only [List.length_cons]
        omega
      · show ([] : List Snapshot).length = _
        simp only [List.length_nil, List.length_cons]
        omega
    · rw [if_neg hK, if_neg (by rw [hdry]; exact fun h => nomatch h), if_pos (hdel s)]
      obtain ⟨ih1, ih2⟩ := ih (dc + 1) (by omega)
      constructor
      · show (deleteLoop cfg env rest (dc + 1)).2 = _
        rw [ih1]
        simp only [List.length_cons]
        omega
      · show (s :: (deleteLoop cfg env rest (dc + 1)).1).length = _
        rw [List.length_cons, ih2]
        simp only [List.length_cons]
        omega

/-- One enabled frequency pass under an all-succeeding environment: no
error, and the deletion counter advances to the budget-clamped total. -/
theorem processFrequency_budget (cfg : Config) (env : Env) (pool : Pool) (f : String)
    (now : Int) (dc cc : Nat)
    (hmax : cfg.GetMaxSnapshotsForFrequency f ≠ 0)
    (hdry : cfg.dryRun = false)
    (hdel : ∀ s, env.deleteOk s = true)
    (hcre : ∀ s, env.createOk s = true)
    (hget : ∀ a b c, env.getSnapshots a b c ≠ none)
    (hdc : dc ≤ cfg.maxDeletionsPerRun) :
    (processFrequency cfg env pool f now dc cc).err = false ∧
    (processFrequency cfg env pool f now dc cc).deletionCount =
      min (dc + eligibleFreq cfg env pool f now) cfg.maxDeletionsPerRun ∧
    (processFrequency cfg env pool f now dc cc).deleteCalls.length =
      min (dc + eligibleFreq cfg env pool f now) cfg.maxDeletionsPerRun - dc := by
  cases hx : env.getSnapshots pool.poolName pool.filesystemName f with
  | none => exact absurd hx (hget _ _ _)
  | some snaps =>
    have he : eligibleFreq cfg env pool f now =
        (classifySnapshots f (cfg.GetMaxSnapshotDate f now) snaps).2.length := by
      unfold eligibleFreq
      rw [hx]
    unfold processFrequency
    rw [if_neg hmax, hx]
    dsimp only
    obtain ⟨hd1, hd2⟩ := deleteLoop_budget cfg env hdry hdel
      (classifySnapshots f (cfg.GetMaxSnapshotDate f now) snaps).2 dc hdc
    by_cases hr : snaps.any (fun s => IsSnapshotRecent s f now) = true
    · rw [if_pos hr]
      exact ⟨rfl, by rw [he]; exact hd1, by rw [he]; exact hd2⟩
    · rw [if_neg hr, if_neg (by rw [hdry]; exact fun h => nomatch h),
        if_pos (hcre _)]
      exact ⟨rfl, by rw [he]; exact hd1, by rw [he]; exact hd2⟩

/-- The frequency loop of one pool accumulates budget-clamped deletions. -/
theorem freqFold_budget (cfg : Config) (env : Env) (pool : Pool) (now : Int)
    (hdry : cfg.dryRun = false)
    (hdel : ∀ s, env.deleteOk s = true)
    (hcre : ∀ s, env.createOk s = true)
    (hget : ∀ a b c, env.getSnapshots a b c ≠ none)
    (fs : List String) (hmaxs : ∀ f ∈ fs, cfg.GetMaxSnapshotsForFrequency f ≠ 0)
    (acc : PoolOutcome) (hdc : acc.deletionCount ≤ cfg.maxDeletionsPerRun) :
    (fs.foldl (freqStep cfg env pool now) acc).deletionCount =
      min (acc.deletionCount + (fs.map (fun f => eligibleFreq cfg env pool f now)).sum)
        cfg.maxDeletionsPerRun ∧
    (fs.foldl (freqStep cfg env pool now) acc).deleteCalls.length =
      acc.deleteCalls.length +
        ((fs.foldl (freqStep cfg env pool now) acc).deletionCount - acc.deletionCount) := by
  induction fs generalizing acc with
  | nil =>
    constructor
    · show acc.deletionCount = _
      simp only [List.map_nil, List.sum_nil]
      omega
    · show acc.deleteCalls.length = acc.deleteCalls.length + (acc.deletionCount - acc.deletionCount)
      omega
  | cons f rest ih =>
    obtain ⟨hp1, hp2, hp3⟩ := processFrequency_budget cfg env pool f now
      acc.deletionCount acc.creationCount (hmaxs f (List.mem_cons_self f rest))
      hdry hdel hcre hget hdc
    have hstep : (freqStep cfg env pool now acc f).deletionCount =
        min (acc.deletionCount + eligibleFreq cfg env pool f now) cfg.maxDeletionsPerRun := hp2
    have hsteplen : (freqStep cfg env pool now acc f).deleteCalls.length =
        acc.deleteCalls.length +
          (min (acc.deletionCount + eligibleFreq cfg env pool f now) cfg.maxDeletionsPerRun
            - acc.deletionCount) := by
      show (acc.deleteCalls ++ _).length = _
      rw [List.length_append, hp3]
    obtain ⟨ih1, ih2⟩ := ih (fun g hg => hmaxs g (List.mem_cons_of_mem f hg))
      (freqStep cfg env pool now acc f) (by rw [hstep]; omega)
    rw [List.foldl_cons]
    constructor
    · rw [ih1, hstep]
      simp only [List.map_cons, List.sum_cons]
      omega
    · rw [ih2, hsteplen, ih1, hstep]
      have hge : acc.deletionCount ≤
          min (acc.deletionCount + eligibleFreq cfg env pool f now) cfg.maxDeletionsPerRun := by
        omega
      omega

/-- processPool for an allowed, healthy pool with a filesystem: no error,
budget-clamped deletions, delete calls matching the counter advance. -/
theorem processPool_budget (cfg : Config) (env : Env) (pool : Pool) (now : Int)
    (st : String → Option PoolStatus) (dc cc : Nat)
    (hdry : cfg.dryRun = false)
    (hdel : ∀ s, env.deleteOk s = true)
    (hcre : ∀ s, env.createOk s = true)
    (hget : ∀ a b c, env.getSnapshots a b c ≠ none)
    (hmaxs : ∀ f ∈ Frequencies, cfg.GetMaxSnapshotsForFrequency f ≠ 0)
    (hallow : cfg.IsPoolAllowed pool.poolName = true)
    (hhealth : IsPoolHealthy pool.poolName st = true)
    (hfs : pool.filesystemName ≠ "")
    (hfsallow : cfg.IsFilesystemAllowed pool.filesystemName = true)
    (hdc : dc ≤ cfg.maxDeletionsPerRun) :
    (processPool cfg env pool now st dc cc).err = false ∧
    (processPool cfg env pool now st dc cc).deletionCount =
      min (dc + eligiblePool cfg env pool now) cfg.maxDeletionsPerRun ∧
    (processPool cfg env pool now st dc cc).deleteCalls.length =
      (processPool cfg env pool now st dc cc).deletionCount - dc := by
  unfold processPool
  rw [if_neg (by rw [hallow]; exact fun h => nomatch h),
    if_neg (by rw [hhealth]; exact fun h => nomatch h),
    if_neg hfs,
    if_neg (by rw [hfsallow]; exact fun h => nomatch h)]
  obtain ⟨h1, h2⟩ := freqFold_budget cfg env pool now hdry hdel hcre hget
    Frequencies hmaxs ⟨false, [], [], dc, cc⟩ hdc
  refine ⟨freqFold_err cfg env pool now Frequencies _ rfl, ?_, ?_⟩
  · rw [h1]
    rfl
  · rw [h2]
    exact Nat.zero_add _

/-- Claim C3 as stated is refuted on the disabled-frequency clause: with a
deletion budget of 1, a disabled hourly frequency (max count 0) holding
two snapshots has both of them deleted — the cleanup loop of the disabled
branch checks no budget — so three, not one, deletions are attempted
across the run (the third from the enabled daily pass is skipped) and the
run's deletion counter ends at 2, exceeding the budget. -/
theorem C3_counterexample :
    ((runPools ⟨false, 1, 0, 7, 4, 12, 3, [], [], "autosnap"⟩
        ⟨fun _ _ f => if f = "hourly" then
            some [⟨"tank", "tank/data", "h1", mkTime 2026 1 24 10 0 0, "hourly"⟩,
              ⟨"tank", "tank/data", "h2", mkTime 2026 1 24 11 0 0, "hourly"⟩]
          else some [],
          fun _ => true, fun _ => true⟩
        [⟨"tank", "tank/data", "100G", "900G", "/tank"⟩] (mkTime 2026 1 25 12 0 0)
        (fun n => if n = "tank" then
          some ⟨"tank", "ONLINE", "", "", "0", 0, "none", "", "", "", "0", "0", "0"⟩
          else none)).deletionCount = 2) ∧
    ((runPools ⟨false, 1, 0, 7, 4, 12, 3, [], [], "autosnap"⟩
        ⟨fun _ _ f => if f = "hourly" then
            some [⟨"tank", "tank/data", "h1", mkTime 2026 1 24 10 0 0, "hourly"⟩,
              ⟨"tank", "tank/data", "h2", mkTime 2026 1 24 11 0 0, "hourly"⟩]
          else some [],
          fun _ => true, fun _ => true⟩
        [⟨"tank", "tank/data", "100G", "900G", "/tank"⟩] (mkTime 2026 1 25 12 0 0)
        (fun n => if n = "tank" then
          some ⟨"tank", "ONLINE", "", "", "0", 0, "none", "", "", "", "0", "0", "0"⟩
          else none)).deleteCalls.length = 2) ∧
    (⟨false, 1, 0, 7, 4, 12, 3, [], [], "autosnap"⟩ : Config).maxDeletionsPerRun = 1 := by
  decide

/-- Claim C3 (amended to enabled frequencies): for a run over allowed,
healthy pools whose frequencies are all enabled, with every deletion
succeeding and a budget K, the number of delete calls equals the eligible
total clamped to K: with M > K eligible deletions exactly K are attempted,
the remainder are skipped, the run reports no failure, and the deletion
counter never exceeds K.  The disabled-frequency cleanup path ignores the
budget (see the counterexample). -/
theorem C3_deletion_budget (cfg : Config) (env : Env) (pools : List Pool) (now : Int)
    (st : String → Option PoolStatus)
    (hdry : cfg.dryRun = false)
    (hdel : ∀ s, env.deleteOk s = true)
    (hcre : ∀ s, env.createOk s = true)
    (hget : ∀ a b c, env.getSnapshots a b c ≠ none)
    (hmaxs : ∀ f ∈ Frequencies, cfg.GetMaxSnapshotsForFrequency f ≠ 0)
    (hpools : ∀ p ∈ pools, cfg.IsPoolAllowed p.poolName = true ∧
      IsPoolHealthy p.poolName st = true ∧ p.filesystemName ≠ "" ∧
      cfg.IsFilesystemAllowed p.filesystemName = true) :
    (runPools cfg env pools now st).failed = false ∧
    (runPools cfg env pools now st).deletionCount =
      min (eligibleRun cfg env pools now) cfg.maxDeletionsPerRun ∧
    (runPools cfg env pools now st).deleteCalls.length =
      (runPools cfg env pools now st).deletionCount ∧
    (runPools cfg env pools now st).deletionCount ≤ cfg.maxDeletionsPerRun ∧
    (eligibleRun cfg env pools now > cfg.maxDeletionsPerRun →
      (runPools cfg env pools now st).deleteCalls.length = cfg.maxDeletionsPerRun) := by
  have main : ∀ (ps : List Pool), (∀ p ∈ ps, cfg.IsPoolAllowed p.poolName = true ∧
      IsPoolHealthy p.poolName st = true ∧ p.filesystemName ≠ "" ∧
      cfg.IsFilesystemAllowed p.filesystemName = true) →
      ∀ (acc : RunOutcome), acc.deletionCount ≤ cfg.maxDeletionsPerRun →
      (ps.foldl (poolStep cfg env now st) acc).errCount = acc.errCount ∧
      (ps.foldl (poolStep cfg env now st) acc).deletionCount =
        min (acc.deletionCount + (ps.map (fun p => eligiblePool cfg env p now)).sum)
          cfg.maxDeletionsPerRun ∧
      (ps.foldl (poolStep cfg env now st) acc).deleteCalls.length =
        acc.deleteCalls.length +
          ((ps.foldl (poolStep cfg env now st) acc).deletionCount - acc.deletionCount) := by
    intro ps
    induction ps with
    | nil =>
      intro _ acc hacc
      refine ⟨rfl, ?_, ?_⟩
      · show acc.deletionCount = _
        simp only [List.map_nil, List.sum_nil]
        omega
      · show acc.deleteCalls.length =
          acc.deleteCalls.length + (acc.deletionCount - acc.deletionCount)
        omega
    | cons p rest ih =>
      intro hps acc hacc
      obtain ⟨ha, hh, hf, hfa⟩ := hps p (List.mem_cons_self p rest)
      obtain ⟨hp1, hp2, hp3⟩ := processPool_budget cfg env p now st
        acc.deletionCount acc.creationCount hdry hdel hcre hget hmaxs ha hh hf hfa hacc
      have hstep : (poolStep cfg env now st acc p).deletionCount =
          min (acc.deletionCount + eligiblePool cfg env p now) cfg.maxDeletionsPerRun := hp2
      have hsteperr : (poolStep cfg env now st acc p).errCount = acc.errCount := by
        show acc.errCount + (if (processPool cfg env p now st
            acc.deletionCount acc.creationCount).err = true then 1 else 0) = _
        rw [hp1]
        simp
      have hsteplen : (poolStep cfg env now st acc p).deleteCalls.length =
          acc.deleteCalls.length +
            ((poolStep cfg env now st acc p).deletionCount - acc.deletionCount) := by
        show (acc.deleteCalls ++ _).length = _
        rw [List.length_append, hp3]
        rfl
      obtain ⟨ih1, ih2, ih3⟩ := ih (fun q hq => hps q (List.mem_cons_of_mem p hq))
        (poolStep cfg env now st acc p) (by rw [hstep]; omega)
      rw [List.foldl_cons]
      refine ⟨by rw [ih1, hsteperr], ?_, ?_⟩
      · rw [ih2, hstep]
        simp only [List.map_cons, List.sum_cons]
        omega
      · rw [ih3, hsteplen, ih2, hstep]
        have hge : acc.deletionCount ≤
            min (acc.deletionCount + eligiblePool cfg env p now) cfg.maxDeletionsPerRun := by
          omega
        omega
  obtain ⟨h1, h2, h3⟩ := main pools hpools ⟨false, 0, [], [], [], 0, 0⟩ (Nat.zero_le _)
  have h2' : (pools.foldl (poolStep cfg env now st) ⟨false, 0, [], [], [], 0, 0⟩).deletionCount =
      min (eligibleRun cfg env pools now) cfg.maxDeletionsPerRun := by
    rw [h2]
    show min (0 + _) _ = _
    rw [Nat.zero_add]
    rfl
  have h3' : (pools.foldl (poolStep cfg env now st) ⟨false, 0, [], [], [], 0, 0⟩).deleteCalls.length =
      (pools.foldl (poolStep cfg env now st) ⟨false, 0, [], [], [], 0, 0⟩).deletionCount := by
    rw [h3]
    show 0 + (_ - (0 : Nat)) = _
    omega
  unfold runPools
  refine ⟨?_, h2', h3', ?_, ?_⟩
  · show decide _ = false
    rw [h1]
    simp
  · show (pools.foldl (poolStep cfg env now st) _).deletionCount ≤ _
    rw [h2']
    omega
  · intro hM
    show (pools.foldl (poolStep cfg env now st) _).deleteCalls.length = _
    rw [h3', h2']
    omega

/-- Witness for C3 (amended): budget 2, three expired yearly snapshots —
exactly two delete calls are issued and the run succeeds. -/
theorem C3_deletion_budget_witness :
    (runPools ⟨false, 2, 24, 7, 4, 12, 3, [], [], "autosnap"⟩
        ⟨fun _ _ f => if f = "yearly" then
            some [⟨"tank", "tank/data", "y1", mkTime 2019 6 1 0 0 0, "yearly"⟩,
              ⟨"tank", "tank/data", "y2", mkTime 2020 6 1 0 0 0, "yearly"⟩,
              ⟨"tank", "tank/data", "y3", mkTime 2021 6 1 0 0 0, "yearly"⟩]
          else some [],
          fun _ => true, fun _ => true⟩
        [⟨"tank", "tank/data", "100G", "900G", "/tank"⟩] (mkTime 2026 1 25 12 0 0)
        (fun n => if n = "tank" then
          some ⟨"tank", "ONLINE", "", "", "0", 0, "none", "", "", "", "0", "0", "0"⟩
          else none)).deleteCalls.length = 2 := by
  have h := C3_deletion_budget ⟨false, 2, 24, 7, 4, 12, 3, [], [], "autosnap"⟩
    ⟨fun _ _ f => if f = "yearly" then
        some [⟨"tank", "tank/data", "y1", mkTime 2019 6 1 0 0 0, "yearly"⟩,
          ⟨"tank", "tank/data", "y2", mkTime 2020 6 1 0 0 0, "yearly"⟩,
          ⟨"tank", "tank/data", "y3", mkTime 2021 6 1 0 0 0, "yearly"⟩]
      else some [],
      fun _ => true, fun _ => true⟩
    [⟨"tank", "tank/data", "100G", "900G", "/tank"⟩] (mkTime 2026 1 25 12 0 0)
    (fun n => if n = "tank" then
      some ⟨"tank", "ONLINE", "", "", "0", 0, "none", "", "", "", "0", "0", "0"⟩
      else none)
    rfl (fun _ => rfl) (fun _ => rfl)
    (by intro a b c; by_cases hf : c = "yearly" <;> simp [hf])
    (by intro f hf; fin_cases hf <;> decide)
    (by intro p hp; rw [List.mem_singleton] at hp; subst hp; exact ⟨rfl, by decide, by decide, rfl⟩)
  exact h.2.2.2.2 (by decide)

end ZfsOp
